import Mathlib

/-!
# Firehose: consumer / producer workers and offset resolution

A shallow embedding of `kafka.go` (`PullFromTopic`, `PushToTopic`, `MonitorChan`,
the producer configuration of `GetKafkaProducer`), `client.go` (`GetCustomOffset`) and the coordinator loop at the end of
`cmd/firehose/firehose.go` (`startFirehose`).

Channels are lists (head = oldest element) together with a capacity; a send on a
full channel and a receive on an empty one leave the worker in a waiting status.
Each worker is a total function from the state it starts in to the status it ends
in together with the state it leaves behind.
-/

namespace Firehose

/-! ## Data model -/

/-- A record read from a source partition (`sarama.ConsumerMessage`). `Key` and
`Value` are byte slices: `none` is the nil slice (a record without key, a
tombstone), `some bs` a slice that is not nil, with bytes `bs`. -/
structure ConsumerMessage where
  Key : Option (List Nat)
  Value : Option (List Nat)
  Topic : String
  Partition : Int
  Offset : Int
deriving DecidableEq, Repr

/-- The fields of `sarama.ProducerMessage` that `PullFromTopic` fills in. `Key` and
`Value` are of the interface type `sarama.Encoder`: `none` is the nil interface (no
key, no value), `some s` a `sarama.StringEncoder` holding the string with bytes `s`. -/
structure ProducerMessage where
  Topic : String
  Key : Option (List Nat)
  Value : Option (List Nat)
  Partition : Int
deriving DecidableEq, Repr

/-- What one round of the `select` in `PullFromTopic` receives: a value from
`consumer.Errors()` or a record from `consumer.Messages()`. -/
inductive ReaderEvent where
  | error (err : String)
  | message (m : ConsumerMessage)
deriving DecidableEq, Repr

/-- The bytes of a byte slice; the nil slice has none. -/
def bytesOf (b : Option (List Nat)) : List Nat :=
  b.getD []

/-- The conversion `sarama.StringEncoder(b)` of a byte slice (kafka.go lines 95-96):
the slice becomes the string with the same bytes, the nil slice the empty string,
and the string is stored in the `Encoder` interface, which is then not nil. -/
def StringEncoder (b : Option (List Nat)) : Option (List Nat) :=
  some (bytesOf b)

/-- The composite literal built in `PullFromTopic` (kafka.go lines 92-97). -/
def toProducerMessage (consumerMsg : ConsumerMessage) : ProducerMessage :=
  { Topic := consumerMsg.Topic
    Partition := consumerMsg.Partition
    Key := StringEncoder consumerMsg.Key
    Value := StringEncoder consumerMsg.Value }

/-- The records among a sequence of reader events, in order. -/
def recordsOf : List ReaderEvent → List ConsumerMessage
  | [] => []
  | .error _ :: rest => recordsOf rest
  | .message m :: rest => m :: recordsOf rest

/-! ## PullFromTopic -/

/-- How a run of `PullFromTopic` ends: by one of its three `return`s, or waiting
at one of its three blocking channel operations. -/
inductive PullStatus where
  | interrupted
  | readError (err : String)
  | reachedFinal
  | waitingRead
  | waitingEnqueue (producerMsg : ProducerMessage)
  | waitingSync (offset : Int)
deriving DecidableEq, Repr

/-- The channels `PullFromTopic` works on, as it leaves them. -/
structure PullResult where
  status : PullStatus
  signals : List Nat
  reader : List ReaderEvent
  transfer : List ProducerMessage
  syncChan : List Int
deriving DecidableEq, Repr

/-- The loop of `PullFromTopic` (kafka.go lines 72-107). `transferCap` and `syncCap`
are the capacities of the `producer` and `syncChan` channels; `reader` is the
sequence of events the `select` receives. -/
def PullFromTopic (transferCap syncCap : Nat) (finalOffset : Int) (signals : List Nat) :
    List ReaderEvent → List ProducerMessage → List Int → PullResult
  | [], transfer, syncChan =>
    if signals.length > 0 then
      ⟨.interrupted, signals, [], transfer, syncChan⟩
    else
      ⟨.waitingRead, signals, [], transfer, syncChan⟩
  | ev :: rest, transfer, syncChan =>
    if signals.length > 0 then
      ⟨.interrupted, signals, ev :: rest, transfer, syncChan⟩
    else
      match ev with
      | .error err => ⟨.readError err, signals, rest, transfer, syncChan⟩
      | .message consumerMsg =>
        let producerMsg := toProducerMessage consumerMsg
        if transfer.length < transferCap then
          if finalOffset > 0 ∧ consumerMsg.Offset ≥ finalOffset then
            if syncChan.length < syncCap then
              ⟨.reachedFinal, signals, rest, transfer ++ [producerMsg],
                syncChan ++ [consumerMsg.Offset]⟩
            else
              ⟨.waitingSync consumerMsg.Offset, signals, rest, transfer ++ [producerMsg],
                syncChan⟩
          else
            PullFromTopic transferCap syncCap finalOffset signals rest
              (transfer ++ [producerMsg]) syncChan
        else
          ⟨.waitingEnqueue producerMsg, signals, rest, transfer, syncChan⟩

/-- The message a waiting `producer <- producerMsg` still holds. -/
def PullStatus.pending : PullStatus → List ProducerMessage
  | .waitingEnqueue producerMsg => [producerMsg]
  | _ => []

/-! ## PushToTopic -/

/-- How a run of `PushToTopic` ends. -/
inductive PushStatus where
  | interrupted
  | publishFailed
  | completed (parNum : Int)
  | waitingDequeue
deriving DecidableEq, Repr

/-- The channels `PushToTopic` works on, as it leaves them, and the messages it
handed to `producer.SendMessage`, in order. -/
structure PushResult where
  status : PushStatus
  signals : List Nat
  transfer : List ProducerMessage
  syncChan : List Int
  sent : List ProducerMessage
deriving DecidableEq, Repr

/-- The completion check after a successful publish (kafka.go lines 131-135):
`len(consumer) <= 0 && len(syncChan) > 0`, then one receive from `syncChan`. -/
def completionCheck (transfer : List ProducerMessage) (syncChan : List Int) :
    Option (Int × List Int) :=
  if transfer.length ≤ 0 ∧ syncChan.length > 0 then
    match syncChan with
    | parNum :: rest => some (parNum, rest)
    | [] => none
  else none

/-- The loop of `PushToTopic` (kafka.go lines 109-137). `send i m` is the outcome of
the `i`-th call of `producer.SendMessage`, on message `m`: `true` when `err == nil`. -/
def PushToTopic (send : Nat → ProducerMessage → Bool) (signals : List Nat) :
    List ProducerMessage → List Int → List ProducerMessage → PushResult
  | [], syncChan, sent =>
    if signals.length > 0 then
      ⟨.interrupted, signals, [], syncChan, sent⟩
    else
      ⟨.waitingDequeue, signals, [], syncChan, sent⟩
  | consumerMsg :: rest, syncChan, sent =>
    if signals.length > 0 then
      ⟨.interrupted, signals, consumerMsg :: rest, syncChan, sent⟩
    else if send sent.length consumerMsg = false then
      ⟨.publishFailed, signals, rest, syncChan, sent ++ [consumerMsg]⟩
    else
      match completionCheck rest syncChan with
      | some (parNum, syncChan1) =>
        ⟨.completed parNum, signals, rest, syncChan1, sent ++ [consumerMsg]⟩
      | none => PushToTopic send signals rest syncChan (sent ++ [consumerMsg])

/-! ## MonitorChan -/

/-- How a run of `MonitorChan` stands after a number of rounds. -/
inductive MonitorStatus where
  | interrupted
  | sleeping
deriving DecidableEq, Repr

/-- The signal channel as `MonitorChan` leaves it, and the queue lengths it logged. -/
structure MonitorResult where
  status : MonitorStatus
  signals : List Nat
  logged : List Nat
deriving DecidableEq, Repr

/-- The loop of `MonitorChan` (kafka.go lines 139-150), run for at most `rounds`
rounds of "log the length, sleep ten seconds". -/
def MonitorChan (transferChan : List ProducerMessage) (signals : List Nat) :
    Nat → List Nat → MonitorResult
  | 0, logged =>
    if signals.length > 0 then ⟨.interrupted, signals, logged⟩
    else ⟨.sleeping, signals, logged⟩
  | rounds + 1, logged =>
    if signals.length > 0 then ⟨.interrupted, signals, logged⟩
    else MonitorChan transferChan signals rounds (logged ++ [transferChan.length])

/-- A record does not end the partition: the test on kafka.go line 100 is false. -/
def belowFinal (finalOffset : Int) (m : ConsumerMessage) : Prop :=
  ¬ (finalOffset > 0 ∧ m.Offset ≥ finalOffset)

instance (finalOffset : Int) (m : ConsumerMessage) : Decidable (belowFinal finalOffset m) := by
  unfold belowFinal; infer_instance

/-- A message of topic `events` for a partition, with empty key and value. -/
def messageFor (partition : Int) : ProducerMessage :=
  { Topic := "events", Key := some [], Value := some [], Partition := partition }

/-- A record of topic `events`, partition 0, with empty key and value, at an offset. -/
def recordAt (offset : Int) : ConsumerMessage :=
  { Key := some [], Value := some [], Topic := "events", Partition := 0, Offset := offset }

/-- A record of topic `events`, partition 0, with the given key and value, at an
offset. -/
def recordWith (key value : Option (List Nat)) (offset : Int) : ConsumerMessage :=
  { Key := key, Value := value, Topic := "events", Partition := 0, Offset := offset }

/-- The records at offsets `start`, `start + 1`, ..., `start + count - 1`. -/
def recordsFrom (start : Int) (count : Nat) : List ConsumerMessage :=
  (List.range count).map fun (i : Nat) => recordAt (start + (i : Int))

/-! ## GetKafkaProducer -/

/-- The partitioners of sarama a producer configuration can name. -/
inductive Partitioner where
  | manual
  | hash
  | random
  | roundRobin
deriving DecidableEq, Repr

/-- The values of `config.Producer.RequiredAcks`. -/
inductive RequiredAcks where
  | NoResponse
  | WaitForLocal
  | WaitForAll
deriving DecidableEq, Repr

/-- The fields of `sarama.Config` that `GetKafkaProducer` sets. -/
structure ProducerConfig where
  RetryMax : Nat
  RequiredAcks : RequiredAcks
  Partitioner : Partitioner
  ClientID : String
deriving DecidableEq, Repr

/-- The configuration `sarama.NewConfig()` starts from. -/
def NewConfig : ProducerConfig :=
  { RetryMax := 3, RequiredAcks := .WaitForLocal, Partitioner := .hash, ClientID := "sarama" }

/-- The configuration `GetKafkaProducer` builds its producer with (kafka.go lines
46-55); `historical` is `custConfig.historical`. -/
def GetKafkaProducer (historical : Bool) : ProducerConfig :=
  let config := { NewConfig with
    RetryMax := 5, RequiredAcks := .WaitForAll, Partitioner := .manual, ClientID := "firehose" }
  if historical then { config with ClientID := "firehose-historical" } else config

/-- The partition a producer with configuration `config` publishes a message to, on
a topic of `numPartitions` partitions. The manual partitioner answers with the
message's own `Partition` field; any other partitioner answers `choose msg
numPartitions` (a hash of the key, a random or a rotating number). An answer outside
`0 .. numPartitions - 1` is refused (`none`, the publish fails). -/
def destinationPartition (config : ProducerConfig) (choose : ProducerMessage → Nat → Int)
    (numPartitions : Nat) (msg : ProducerMessage) : Option Int :=
  let choice : Int := match config.Partitioner with
    | .manual => msg.Partition
    | _ => choose msg numPartitions
  if choice < 0 ∨ choice ≥ (numPartitions : Int) then none else some choice

/-! ## The coordinator loop of startFirehose -/

theorem pull_interrupted (transferCap syncCap : Nat) (finalOffset : Int) (signals : List Nat)
    (hs : signals ≠ []) (reader : List ReaderEvent) (transfer : List ProducerMessage)
    (syncChan : List Int) :
    PullFromTopic transferCap syncCap finalOffset signals reader transfer syncChan
      = ⟨.interrupted, signals, reader, transfer, syncChan⟩ := by
  have hlen : signals.length > 0 := List.length_pos.mpr hs
  cases reader <;> simp [PullFromTopic, hlen]

/-- One round of the loop on a record that does not end the partition. -/
theorem pull_step_below (transferCap syncCap : Nat) (finalOffset : Int) (m : ConsumerMessage)
    (rest : List ReaderEvent) (transfer : List ProducerMessage) (syncChan : List Int)
    (hm : belowFinal finalOffset m) (hlt : transfer.length < transferCap) :
    PullFromTopic transferCap syncCap finalOffset [] (ReaderEvent.message m :: rest)
        transfer syncChan
      = PullFromTopic transferCap syncCap finalOffset [] rest
          (transfer ++ [toProducerMessage m]) syncChan := by
  unfold belowFinal at hm
  simp [PullFromTopic, hlt, hm]

/-- One round of the loop on a record that ends the partition. -/
theorem pull_step_final (transferCap syncCap : Nat) (finalOffset : Int) (m : ConsumerMessage)
    (rest : List ReaderEvent) (transfer : List ProducerMessage) (syncChan : List Int)
    (hpos : 0 < finalOffset) (hm : finalOffset ≤ m.Offset)
    (hlt : transfer.length < transferCap) (hsync : syncChan.length < syncCap) :
    PullFromTopic transferCap syncCap finalOffset [] (ReaderEvent.message m :: rest)
        transfer syncChan
      = ⟨.reachedFinal, [], rest, transfer ++ [toProducerMessage m],
          syncChan ++ [m.Offset]⟩ := by
  simp [PullFromTopic, hlt, hm, hpos, hsync]

/-- Records that do not end the partition are forwarded one by one while the
transfer queue has room; the run then goes on with the events that follow. -/
theorem pull_forward_run (transferCap syncCap : Nat) (finalOffset : Int)
    (pre : List ConsumerMessage) :
    ∀ (tail : List ReaderEvent) (transfer : List ProducerMessage) (syncChan : List Int),
      (∀ m ∈ pre, belowFinal finalOffset m) →
      transfer.length + pre.length ≤ transferCap →
      PullFromTopic transferCap syncCap finalOffset [] (pre.map ReaderEvent.message ++ tail)
          transfer syncChan
        = PullFromTopic transferCap syncCap finalOffset [] tail
            (transfer ++ pre.map toProducerMessage) syncChan := by
  induction pre with
  | nil => intro tail transfer syncChan _ _; simp
  | cons m pre ih =>
    intro tail transfer syncChan hbelow hroom
    have hm : belowFinal finalOffset m := hbelow m (List.mem_cons_self _ _)
    have hrest : ∀ x ∈ pre, belowFinal finalOffset x :=
      fun x hx => hbelow x (List.mem_cons_of_mem _ hx)
    simp only [List.length_cons] at hroom
    have hlt : transfer.length < transferCap := by omega
    have hroom1 : (transfer ++ [toProducerMessage m]).length + pre.length ≤ transferCap := by
      simp only [List.length_append, List.length_singleton]; omega
    rw [List.map_cons, List.cons_append, pull_step_below _ _ _ _ _ _ _ hm hlt,
      ih tail (transfer ++ [toProducerMessage m]) syncChan hrest hroom1]
    simp

/-- Offsets below a positive final offset do not end the partition. -/
theorem belowFinal_of_lt {finalOffset : Int} {m : ConsumerMessage}
    (h : m.Offset < finalOffset) : belowFinal finalOffset m := by
  unfold belowFinal; omega

/-- Whatever the events and the capacities, a run never sends a completion token
unless it ends in `reachedFinal`, and then it sends exactly one. -/
theorem pull_sync_cases (transferCap syncCap : Nat) (finalOffset : Int) (signals : List Nat)
    (reader : List ReaderEvent) :
    ∀ (transfer : List ProducerMessage) (syncChan : List Int),
      let res := PullFromTopic transferCap syncCap finalOffset signals reader transfer syncChan
      (res.status ≠ .reachedFinal ∧ res.syncChan = syncChan) ∨
      (res.status = .reachedFinal ∧ ∃ off, finalOffset > 0 ∧ off ≥ finalOffset ∧
        res.syncChan = syncChan ++ [off]) := by
  induction reader with
  | nil =>
    intro transfer syncChan
    by_cases hs : signals.length > 0 <;> simp [PullFromTopic, hs]
  | cons ev rest ih =>
    intro transfer syncChan
    by_cases hs : signals.length > 0
    · simp [PullFromTopic, hs]
    · cases ev with
      | error err => simp [PullFromTopic, hs]
      | message m =>
        by_cases hlt : transfer.length < transferCap
        · by_cases hfin : finalOffset > 0 ∧ m.Offset ≥ finalOffset
          · by_cases hsync : syncChan.length < syncCap
            · right
              simp only [PullFromTopic, hs, hlt, hsync, if_true, if_false, if_pos hfin]
              exact ⟨trivial, m.Offset, hfin.1, hfin.2, rfl⟩
            · simp [PullFromTopic, hs, hlt, hfin, hsync]
          · have := ih (transfer ++ [toProducerMessage m]) syncChan
            simpa [PullFromTopic, hs, hlt, hfin] using this
        · simp [PullFromTopic, hs, hlt]

/-- While every record stays below the final offset no completion token is sent,
whatever the capacities, the signals and the read errors. -/
theorem pull_no_token (transferCap syncCap : Nat) (finalOffset : Int) (signals : List Nat)
    (reader : List ReaderEvent) :
    ∀ (transfer : List ProducerMessage) (syncChan : List Int),
      (∀ m ∈ recordsOf reader, belowFinal finalOffset m) →
      (PullFromTopic transferCap syncCap finalOffset signals reader transfer syncChan).status
          ≠ .reachedFinal ∧
      (PullFromTopic transferCap syncCap finalOffset signals reader transfer syncChan).syncChan
          = syncChan := by
  induction reader with
  | nil =>
    intro transfer syncChan _
    by_cases hs : signals.length > 0 <;> simp [PullFromTopic, hs]
  | cons ev rest ih =>
    intro transfer syncChan hbelow
    by_cases hs : signals.length > 0
    · simp [PullFromTopic, hs]
    · cases ev with
      | error err => simp [PullFromTopic, hs]
      | message m =>
        have hm : belowFinal finalOffset m := hbelow m (by simp [recordsOf])
        have hrest : ∀ x ∈ recordsOf rest, belowFinal finalOffset x :=
          fun x hx => hbelow x (by simp [recordsOf, hx])
        unfold belowFinal at hm
        by_cases hlt : transfer.length < transferCap
        · have := ih (transfer ++ [toProducerMessage m]) syncChan hrest
          simpa [PullFromTopic, hs, hlt, hm] using this
        · simp [PullFromTopic, hs, hlt]

theorem recordsOf_append (a b : List ReaderEvent) :
    recordsOf (a ++ b) = recordsOf a ++ recordsOf b := by
  induction a with
  | nil => rfl
  | cons ev rest ih => cases ev <;> simp [recordsOf, ih]

theorem recordsOf_map_message (rs : List ConsumerMessage) :
    recordsOf (rs.map ReaderEvent.message) = rs := by
  induction rs with
  | nil => rfl
  | cons m rest ih => simp [recordsOf, ih]

/-- The events a run has taken from the reader, and what became of their records:
each record taken is in the transfer queue, behind the records taken before it, or
is the one the worker holds while it waits for room in the queue. -/
theorem pull_trace (transferCap syncCap : Nat) (finalOffset : Int) (signals : List Nat)
    (reader : List ReaderEvent) :
    ∀ (transfer : List ProducerMessage) (syncChan : List Int),
      ∃ consumed : List ReaderEvent,
        reader = consumed ++
          (PullFromTopic transferCap syncCap finalOffset signals reader transfer syncChan).reader ∧
        (PullFromTopic transferCap syncCap finalOffset signals reader transfer syncChan).transfer
          ++ (PullFromTopic transferCap syncCap finalOffset signals reader transfer
                syncChan).status.pending
          = transfer ++ (recordsOf consumed).map toProducerMessage := by
  induction reader with
  | nil =>
    intro transfer syncChan
    refine ⟨[], ?_⟩
    by_cases hs : signals.length > 0 <;> simp [PullFromTopic, hs, PullStatus.pending, recordsOf]
  | cons ev rest ih =>
    intro transfer syncChan
    by_cases hs : signals.length > 0
    · exact ⟨[], by simp [PullFromTopic, hs, PullStatus.pending, recordsOf]⟩
    · cases ev with
      | error err =>
        exact ⟨[.error err], by simp [PullFromTopic, hs, PullStatus.pending, recordsOf]⟩
      | message m =>
        by_cases hlt : transfer.length < transferCap
        · by_cases hfin : finalOffset > 0 ∧ m.Offset ≥ finalOffset
          · by_cases hsync : syncChan.length < syncCap
            · refine ⟨[.message m], ?_⟩
              simp only [PullFromTopic, hs, hlt, hsync, if_true, if_false, if_pos hfin]
              simp [PullStatus.pending, recordsOf]
            · refine ⟨[.message m], ?_⟩
              simp only [PullFromTopic, hs, hlt, hsync, if_true, if_false, if_pos hfin]
              simp [PullStatus.pending, recordsOf]
          · obtain ⟨consumed, h1, h2⟩ := ih (transfer ++ [toProducerMessage m]) syncChan
            refine ⟨.message m :: consumed, ?_⟩
            simp only [PullFromTopic, hs, hlt, if_true, if_false, if_neg hfin]
            refine ⟨?_, ?_⟩
            · rw [List.cons_append, ← h1]
            · rw [h2]; simp [recordsOf]
        · refine ⟨[.message m], ?_⟩
          simp [PullFromTopic, hs, hlt, PullStatus.pending, recordsOf]

/-! ## Lemmas on PushToTopic and MonitorChan -/

theorem completionCheck_iff (transfer : List ProducerMessage) (syncChan : List Int)
    (parNum : Int) (rest : List Int) :
    completionCheck transfer syncChan = some (parNum, rest) ↔
      transfer = [] ∧ syncChan = parNum :: rest := by
  unfold completionCheck
  cases transfer <;> cases syncChan <;> simp

theorem completionCheck_nonempty (m : ProducerMessage) (transfer : List ProducerMessage)
    (syncChan : List Int) : completionCheck (m :: transfer) syncChan = none := by
  simp [completionCheck]

theorem completionCheck_no_token (transfer : List ProducerMessage) :
    completionCheck transfer [] = none := by
  simp [completionCheck]

theorem push_interrupted (send : Nat → ProducerMessage → Bool) (signals : List Nat)
    (hs : signals ≠ []) (transfer : List ProducerMessage) (syncChan : List Int)
    (sent : List ProducerMessage) :
    PushToTopic send signals transfer syncChan sent
      = ⟨.interrupted, signals, transfer, syncChan, sent⟩ := by
  have hlen : signals.length > 0 := List.length_pos.mpr hs
  cases transfer <;> simp [PushToTopic, hlen]

theorem push_step_fail (send : Nat → ProducerMessage → Bool) (signals : List Nat)
    (a : ProducerMessage) (rest : List ProducerMessage) (syncChan : List Int)
    (sent : List ProducerMessage) (hs : ¬ signals.length > 0)
    (ha : send sent.length a = false) :
    PushToTopic send signals (a :: rest) syncChan sent
      = ⟨.publishFailed, signals, rest, syncChan, sent ++ [a]⟩ := by
  rw [PushToTopic]; simp [hs, ha]

theorem push_step_done (send : Nat → ProducerMessage → Bool) (signals : List Nat)
    (a : ProducerMessage) (rest : List ProducerMessage) (syncChan : List Int)
    (sent : List ProducerMessage) (parNum : Int) (syncChan1 : List Int)
    (hs : ¬ signals.length > 0) (ha : send sent.length a = true)
    (hcc : completionCheck rest syncChan = some (parNum, syncChan1)) :
    PushToTopic send signals (a :: rest) syncChan sent
      = ⟨.completed parNum, signals, rest, syncChan1, sent ++ [a]⟩ := by
  rw [PushToTopic]; simp [hs, ha, hcc]

theorem push_step_ok (send : Nat → ProducerMessage → Bool) (signals : List Nat)
    (a : ProducerMessage) (rest : List ProducerMessage) (syncChan : List Int)
    (sent : List ProducerMessage)
    (hs : ¬ signals.length > 0) (ha : send sent.length a = true)
    (hcc : completionCheck rest syncChan = none) :
    PushToTopic send signals (a :: rest) syncChan sent
      = PushToTopic send signals rest syncChan (sent ++ [a]) := by
  rw [PushToTopic]; simp [hs, ha, hcc]

/-- Messages whose publish succeeds are taken from the queue one by one as long as
another message is queued behind them. -/
theorem push_success_run (send : Nat → ProducerMessage → Bool) (pre : List ProducerMessage) :
    ∀ (m : ProducerMessage) (post : List ProducerMessage) (syncChan : List Int)
      (sent : List ProducerMessage),
      (∀ i x, pre[i]? = some x → send (sent.length + i) x = true) →
      PushToTopic send [] (pre ++ m :: post) syncChan sent
        = PushToTopic send [] (m :: post) syncChan (sent ++ pre) := by
  induction pre with
  | nil => intro m post syncChan sent _; simp
  | cons a pre ih =>
    intro m post syncChan sent hok
    have ha : send sent.length a = true := by simpa using hok 0 a (by simp)
    have hrest : ∀ i x, pre[i]? = some x → send ((sent ++ [a]).length + i) x = true := by
      intro i x hx
      have := hok (i + 1) x (by simpa using hx)
      simpa [Nat.add_assoc, Nat.add_comm 1 i] using this
    have hcc : completionCheck (pre ++ m :: post) syncChan = none := by
      cases pre <;> simp [completionCheck]
    have hstep : PushToTopic send [] (a :: (pre ++ m :: post)) syncChan sent
        = PushToTopic send [] (pre ++ m :: post) syncChan (sent ++ [a]) :=
      push_step_ok send [] a _ syncChan sent (by simp) ha hcc
    rw [List.cons_append, hstep, ih m post syncChan (sent ++ [a]) hrest]
    simp

/-- What a run takes from the queue is what it hands to `SendMessage`, in order. -/
theorem push_trace (send : Nat → ProducerMessage → Bool) (signals : List Nat)
    (transfer : List ProducerMessage) :
    ∀ (syncChan : List Int) (sent : List ProducerMessage),
      ∃ taken : List ProducerMessage,
        transfer = taken ++ (PushToTopic send signals transfer syncChan sent).transfer ∧
        (PushToTopic send signals transfer syncChan sent).sent = sent ++ taken := by
  induction transfer with
  | nil =>
    intro syncChan sent
    refine ⟨[], ?_⟩
    by_cases hs : signals.length > 0 <;> simp [PushToTopic, hs]
  | cons a rest ih =>
    intro syncChan sent
    by_cases hs : signals.length > 0
    · exact ⟨[], by simp [PushToTopic, hs]⟩
    · by_cases ha : send sent.length a = false
      · exact ⟨[a], by simp [push_step_fail send signals a rest syncChan sent hs ha]⟩
      · have ha1 : send sent.length a = true := by simpa using ha
        cases hcc : completionCheck rest syncChan with
        | some pr =>
          refine ⟨[a], ?_⟩
          rw [push_step_done send signals a rest syncChan sent pr.1 pr.2 hs ha1 hcc]
          simp
        | none =>
          obtain ⟨taken, h1, h2⟩ := ih syncChan (sent ++ [a])
          refine ⟨a :: taken, ?_⟩
          rw [push_step_ok send signals a rest syncChan sent hs ha1 hcc]
          refine ⟨?_, ?_⟩
          · rw [List.cons_append, ← h1]
          · rw [h2]; simp

/-- A run that ends by the completion exit has emptied the queue, its last publish
succeeded, and it took the head token, and only that one, from `syncChan`. -/
theorem push_completed_inv (send : Nat → ProducerMessage → Bool) (signals : List Nat)
    (transfer : List ProducerMessage) :
    ∀ (syncChan : List Int) (sent : List ProducerMessage) (parNum : Int),
      (PushToTopic send signals transfer syncChan sent).status = .completed parNum →
      signals = [] ∧
      (PushToTopic send signals transfer syncChan sent).transfer = [] ∧
      syncChan = parNum :: (PushToTopic send signals transfer syncChan sent).syncChan ∧
      ∃ (init : List ProducerMessage) (last : ProducerMessage),
        transfer = init ++ [last] ∧
        (PushToTopic send signals transfer syncChan sent).sent = sent ++ init ++ [last] ∧
        send (sent.length + init.length) last = true := by
  induction transfer with
  | nil =>
    intro syncChan sent parNum
    by_cases hs : signals.length > 0 <;> simp [PushToTopic, hs]
  | cons a rest ih =>
    intro syncChan sent parNum
    by_cases hs : signals.length > 0
    · simp [PushToTopic, hs]
    · have hsig : signals = [] := by
        cases signals with
        | nil => rfl
        | cons x xs => simp at hs
      by_cases ha : send sent.length a = false
      · simp [push_step_fail send signals a rest syncChan sent hs ha]
      · have ha1 : send sent.length a = true := by simpa using ha
        cases hcc : completionCheck rest syncChan with
        | some pr =>
          obtain ⟨p, r⟩ := pr
          have hiff := (completionCheck_iff rest syncChan p r).mp hcc
          rw [push_step_done send signals a rest syncChan sent p r hs ha1 hcc]
          intro hst
          have hp : p = parNum := by simpa using hst
          subst hp
          refine ⟨hsig, hiff.1, hiff.2, [], a, ?_, ?_, ?_⟩
          · simp [hiff.1]
          · simp
          · simpa using ha1
        | none =>
          rw [push_step_ok send signals a rest syncChan sent hs ha1 hcc]
          intro hst
          obtain ⟨h1, h2, h3, init, last, h4, h5, h6⟩ := ih syncChan (sent ++ [a]) parNum hst
          refine ⟨h1, h2, h3, a :: init, last, ?_, ?_, ?_⟩
          · simp [h4]
          · rw [h5]; simp
          · have : (sent ++ [a]).length + init.length = sent.length + (a :: init).length := by
              simp; omega
            rw [← this]; exact h6

theorem monitor_interrupted (transferChan : List ProducerMessage) (signals : List Nat)
    (hs : signals ≠ []) (rounds : Nat) (logged : List Nat) :
    MonitorChan transferChan signals rounds logged = ⟨.interrupted, signals, logged⟩ := by
  have hlen : signals.length > 0 := List.length_pos.mpr hs
  cases rounds <;> simp [MonitorChan, hlen]

theorem pull_signals (transferCap syncCap : Nat) (finalOffset : Int) (signals : List Nat)
    (reader : List ReaderEvent) :
    ∀ (transfer : List ProducerMessage) (syncChan : List Int),
      (PullFromTopic transferCap syncCap finalOffset signals reader transfer syncChan).signals
        = signals := by
  induction reader with
  | nil =>
    intro transfer syncChan
    by_cases hs : signals.length > 0 <;> simp [PullFromTopic, hs]
  | cons ev rest ih =>
    intro transfer syncChan
    by_cases hs : signals.length > 0
    · simp [PullFromTopic, hs]
    · cases ev with
      | error err => simp [PullFromTopic, hs]
      | message m =>
        by_cases hlt : transfer.length < transferCap
        · by_cases hfin : finalOffset > 0 ∧ m.Offset ≥ finalOffset
          · by_cases hsync : syncChan.length < syncCap <;>
              simp only [PullFromTopic, hs, hlt, hsync, if_true, if_false, if_pos hfin]
          · simpa [PullFromTopic, hs, hlt, hfin] using
              ih (transfer ++ [toProducerMessage m]) syncChan
        · simp [PullFromTopic, hs, hlt]

theorem push_signals (send : Nat → ProducerMessage → Bool) (signals : List Nat)
    (transfer : List ProducerMessage) :
    ∀ (syncChan : List Int) (sent : List ProducerMessage),
      (PushToTopic send signals transfer syncChan sent).signals = signals := by
  induction transfer with
  | nil =>
    intro syncChan sent
    by_cases hs : signals.length > 0 <;> simp [PushToTopic, hs]
  | cons a rest ih =>
    intro syncChan sent
    by_cases hs : signals.length > 0
    · simp [PushToTopic, hs]
    · by_cases ha : send sent.length a = false
      · simp [push_step_fail send signals a rest syncChan sent hs ha]
      · have ha1 : send sent.length a = true := by simpa using ha
        cases hcc : completionCheck rest syncChan with
        | some pr =>
          rw [push_step_done send signals a rest syncChan sent pr.1 pr.2 hs ha1 hcc]
        | none =>
          rw [push_step_ok send signals a rest syncChan sent hs ha1 hcc]
          exact ih syncChan (sent ++ [a])

theorem monitor_signals (transferChan : List ProducerMessage) (signals : List Nat)
    (rounds : Nat) :
    ∀ logged : List Nat, (MonitorChan transferChan signals rounds logged).signals = signals := by
  induction rounds with
  | zero =>
    intro logged
    by_cases hs : signals.length > 0 <;> simp [MonitorChan, hs]
  | succ n ih =>
    intro logged
    by_cases hs : signals.length > 0
    · simp [MonitorChan, hs]
    · simpa [MonitorChan, hs] using ih (logged ++ [transferChan.length])

theorem recordsFrom_length (start : Int) (count : Nat) :
    (recordsFrom start count).length = count := by
  simp [recordsFrom]

theorem recordsFrom_offset_lt (start : Int) (count : Nat) (m : ConsumerMessage)
    (hm : m ∈ recordsFrom start count) : m.Offset < start + count := by
  simp only [recordsFrom, List.mem_map, List.mem_range] at hm
  obtain ⟨i, hi, rfl⟩ := hm
  simp only [recordAt]
  omega

/-! ## Lemmas on float64 rounding and GetCustomOffset -/

/-- C2 (as stated, refuted): final offset 5, records at offsets 3, 7 and 9. The
record at offset 7 is the first at or above the final offset; it lies beyond the
final offset and is read and forwarded all the same, before the worker tests its
offset and stops. -/
theorem pull_reads_past_final_counterexample :
    PullFromTopic 10 1 5 []
        [ReaderEvent.message (recordWith (some [1]) (some [3]) 3),
         ReaderEvent.message (recordWith (some [1]) (some [7]) 7),
         ReaderEvent.message (recordWith (some [1]) (some [9]) 9)] [] []
      = ⟨.reachedFinal, [], [ReaderEvent.message (recordWith (some [1]) (some [9]) 9)],
          [toProducerMessage (recordWith (some [1]) (some [3]) 3),
           toProducerMessage (recordWith (some [1]) (some [7]) 7)], [7]⟩ ∧
    (5 : Int) < (recordWith (some [1]) (some [7]) 7).Offset ∧
    toProducerMessage (recordWith (some [1]) (some [7]) 7) ∈
      (PullFromTopic 10 1 5 []
        [ReaderEvent.message (recordWith (some [1]) (some [3]) 3),
         ReaderEvent.message (recordWith (some [1]) (some [7]) 7),
         ReaderEvent.message (recordWith (some [1]) (some [9]) 9)] [] []).transfer := by
  simp [PullFromTopic, recordWith, toProducerMessage]

/-- C2 (amended): with a final offset above zero, no read error and no interrupt, and
room in the two channels, `PullFromTopic` stops at the first record whose offset is at
or above the final offset: it forwards the records before it and that record itself,
sends one completion token carrying that record's offset, returns, and leaves every
record after it unread. When every record is below the final offset it sends no token
and does not take the completion return, whatever the capacities. And in every run,
whatever the events, the signals and the capacities, `syncChan` is either left as it
was or has gained exactly one token, with an offset at or above the final offset, on
the completion return. -/
theorem pull_stops_at_final_offset (transferCap syncCap : Nat) (finalOffset : Int)
    (pre post : List ConsumerMessage) (last : ConsumerMessage)
    (transfer : List ProducerMessage) (syncChan : List Int)
    (hpos : 0 < finalOffset)
    (hpre : ∀ m ∈ pre, m.Offset < finalOffset)
    (hlast : finalOffset ≤ last.Offset)
    (hroom : transfer.length + pre.length < transferCap)
    (hsync : syncChan.length < syncCap) :
    PullFromTopic transferCap syncCap finalOffset []
        ((pre ++ last :: post).map ReaderEvent.message) transfer syncChan
      = ⟨.reachedFinal, [], post.map ReaderEvent.message,
          transfer ++ (pre ++ [last]).map toProducerMessage, syncChan ++ [last.Offset]⟩ ∧
    (∀ (cap1 cap2 : Nat) (rs : List ConsumerMessage), (∀ m ∈ rs, m.Offset < finalOffset) →
      (PullFromTopic cap1 cap2 finalOffset [] (rs.map ReaderEvent.message)
          transfer syncChan).status ≠ .reachedFinal ∧
      (PullFromTopic cap1 cap2 finalOffset [] (rs.map ReaderEvent.message)
          transfer syncChan).syncChan = syncChan) ∧
    ∀ (cap1 cap2 : Nat) (signals : List Nat) (reader : List ReaderEvent)
      (queue : List ProducerMessage) (tokens : List Int),
      ((PullFromTopic cap1 cap2 finalOffset signals reader queue tokens).status
          ≠ .reachedFinal ∧
        (PullFromTopic cap1 cap2 finalOffset signals reader queue tokens).syncChan = tokens) ∨
      ((PullFromTopic cap1 cap2 finalOffset signals reader queue tokens).status
          = .reachedFinal ∧
        ∃ off, finalOffset > 0 ∧ off ≥ finalOffset ∧
          (PullFromTopic cap1 cap2 finalOffset signals reader queue tokens).syncChan
            = tokens ++ [off]) := by
  refine ⟨?_, ?_, ?_⟩
  · have hbelow : ∀ m ∈ pre, belowFinal finalOffset m :=
      fun m hm => belowFinal_of_lt (hpre m hm)
    have hsplit : (pre ++ last :: post).map ReaderEvent.message
        = pre.map ReaderEvent.message
            ++ (ReaderEvent.message last :: post.map ReaderEvent.message) := by
      simp
    have hlt : (transfer ++ pre.map toProducerMessage).length < transferCap := by
      simp only [List.length_append, List.length_map]; omega
    rw [hsplit, pull_forward_run transferCap syncCap finalOffset pre _ transfer syncChan
      hbelow (by omega), pull_step_final _ _ _ _ _ _ _ hpos hlast hlt hsync]
    simp
  · intro cap1 cap2 rs hrs
    apply pull_no_token
    intro m hm
    rw [recordsOf_map_message] at hm
    exact belowFinal_of_lt (hrs m hm)
  · intro cap1 cap2 signals reader queue tokens
    exact pull_sync_cases cap1 cap2 finalOffset signals reader queue tokens

/-- C2 (amended), at a concrete run: final offset 5, records at offsets 3, 4, 5, 6. -/
theorem pull_stops_at_final_offset_witness :
    PullFromTopic 10 1 5 []
        (([recordAt 3, recordAt 4] ++ recordAt 5 :: [recordAt 6]).map ReaderEvent.message) [] []
      = ⟨.reachedFinal, [], [recordAt 6].map ReaderEvent.message,
          [] ++ ([recordAt 3, recordAt 4] ++ [recordAt 5]).map toProducerMessage,
          [] ++ [(recordAt 5).Offset]⟩ :=
  (pull_stops_at_final_offset 10 1 5 [recordAt 3, recordAt 4] [recordAt 6] (recordAt 5) [] []
    (by decide) (by simp [recordAt]) (by simp [recordAt]) (by simp) (by simp)).1

/-- C3: the resolved window of the scenario is start 750, end 1000. Fed the 250
records at offsets 750..999 with final offset 1000, `PullFromTopic` forwards each of
them once, in order, and is then waiting for a further record: it has sent no
completion token and has not returned. No capacity of the two channels changes
that: the completion return is never taken and `syncChan` stays empty. -/
theorem pull_scenario_waits :
    PullFromTopic 250 1 1000 [] ((recordsFrom 750 250).map ReaderEvent.message) [] []
      = ⟨.waitingRead, [], [], (recordsFrom 750 250).map toProducerMessage, []⟩ ∧
    ∀ transferCap syncCap : Nat,
      (PullFromTopic transferCap syncCap 1000 [] ((recordsFrom 750 250).map ReaderEvent.message)
          [] []).status ≠ .reachedFinal ∧
      (PullFromTopic transferCap syncCap 1000 [] ((recordsFrom 750 250).map ReaderEvent.message)
          [] []).syncChan = [] := by
  have hbelow : ∀ m ∈ recordsFrom 750 250, belowFinal 1000 m := by
    intro m hm
    have := recordsFrom_offset_lt 750 250 m hm
    exact belowFinal_of_lt (by simpa using this)
  refine ⟨?_, ?_⟩
  · have h := pull_forward_run 250 1 1000 (recordsFrom 750 250) [] [] [] hbelow
      (by simp [recordsFrom_length])
    rw [List.append_nil] at h
    rw [h]
    simp [PullFromTopic]
  · intro transferCap syncCap
    apply pull_no_token
    intro m hm
    rw [recordsOf_map_message] at hm
    exact hbelow m hm

/-- C4 (as stated, refuted): a record without key and value (nil key, nil value).
The message `PullFromTopic` enqueues for it carries a key and a value that are not
nil (empty ones): key and value are not unchanged. -/
theorem pull_nil_key_counterexample :
    PullFromTopic 10 1 0 [] [ReaderEvent.message (recordWith none none 5)] [] []
      = ⟨.waitingRead, [], [], [⟨"events", some [], some [], 0⟩], []⟩ ∧
    (toProducerMessage (recordWith none none 5)).Key ≠ (recordWith none none 5).Key ∧
    (toProducerMessage (recordWith none none 5)).Value ≠ (recordWith none none 5).Value := by
  simp [PullFromTopic, recordWith, toProducerMessage, StringEncoder, bytesOf]

/-- C4 (amended): records the reader delivers with no interrupt, none of them ending
the partition, and room in the transfer queue are all enqueued, one message per
record, in the order read. In every run of `PullFromTopic` the events taken from the
reader are a prefix of the reader's sequence, and the transfer queue has gained
exactly one message per record taken, in the order taken (the last one may still be
held by a waiting send); if the reader delivers records in non-decreasing offset
order, so are the records forwarded. Each message carries its record's topic and
partition unchanged and a key and a value with the same bytes as the record's; a key
or value that is not nil is unchanged. The producer `GetKafkaProducer` configures
uses the manual partitioner, so the partition a message is published to is the
partition of its record. -/
theorem pull_forwards_in_order (transferCap syncCap : Nat) (finalOffset : Int)
    (rs : List ConsumerMessage) (transfer : List ProducerMessage) (syncChan : List Int)
    (hbelow : ∀ m ∈ rs, belowFinal finalOffset m)
    (hroom : transfer.length + rs.length ≤ transferCap) :
    PullFromTopic transferCap syncCap finalOffset [] (rs.map ReaderEvent.message)
        transfer syncChan
      = ⟨.waitingRead, [], [], transfer ++ rs.map toProducerMessage, syncChan⟩ ∧
    (∀ (cap1 cap2 : Nat) (signals : List Nat) (reader : List ReaderEvent)
      (queue : List ProducerMessage) (tokens : List Int),
      ∃ consumed : List ReaderEvent,
        reader = consumed ++
          (PullFromTopic cap1 cap2 finalOffset signals reader queue tokens).reader ∧
        (PullFromTopic cap1 cap2 finalOffset signals reader queue tokens).transfer
          ++ (PullFromTopic cap1 cap2 finalOffset signals reader queue tokens).status.pending
          = queue ++ (recordsOf consumed).map toProducerMessage ∧
        (List.Pairwise (fun a b : Int => a ≤ b) ((recordsOf reader).map fun m => m.Offset) →
          List.Pairwise (fun a b : Int => a ≤ b)
            ((recordsOf consumed).map fun m => m.Offset))) ∧
    (∀ m : ConsumerMessage,
      (toProducerMessage m).Topic = m.Topic ∧ (toProducerMessage m).Partition = m.Partition ∧
      bytesOf (toProducerMessage m).Key = bytesOf m.Key ∧
      bytesOf (toProducerMessage m).Value = bytesOf m.Value ∧
      (m.Key ≠ none → (toProducerMessage m).Key = m.Key) ∧
      (m.Value ≠ none → (toProducerMessage m).Value = m.Value)) ∧
    ∀ (historical : Bool) (choose : ProducerMessage → Nat → Int) (numPartitions : Nat)
      (m : ConsumerMessage),
      (GetKafkaProducer historical).Partitioner = Partitioner.manual ∧
      (∀ p, destinationPartition (GetKafkaProducer historical) choose numPartitions
          (toProducerMessage m) = some p → p = m.Partition) ∧
      (0 ≤ m.Partition → m.Partition < numPartitions →
        destinationPartition (GetKafkaProducer historical) choose numPartitions
          (toProducerMessage m) = some m.Partition) := by
  refine ⟨?_, ?_, ?_, ?_⟩
  · have h := pull_forward_run transferCap syncCap finalOffset rs [] transfer syncChan
      hbelow hroom
    rw [List.append_nil] at h
    rw [h]
    simp [PullFromTopic]
  · intro cap1 cap2 signals reader queue tokens
    obtain ⟨consumed, h1, h2⟩ :=
      pull_trace cap1 cap2 finalOffset signals reader queue tokens
    refine ⟨consumed, h1, h2, ?_⟩
    intro hsorted
    have hsub : List.Sublist ((recordsOf consumed).map fun m => m.Offset)
        ((recordsOf reader).map fun m => m.Offset) := by
      conv_rhs => rw [h1, recordsOf_append, List.map_append]
      exact List.sublist_append_left _ _
    exact hsorted.sublist hsub
  · intro m
    refine ⟨rfl, rfl, rfl, rfl, ?_, ?_⟩
    · intro hk
      cases hkey : m.Key with
      | none => exact absurd hkey hk
      | some k => simp [toProducerMessage, StringEncoder, bytesOf, hkey]
    · intro hv
      cases hval : m.Value with
      | none => exact absurd hval hv
      | some v => simp [toProducerMessage, StringEncoder, bytesOf, hval]
  · intro historical choose numPartitions m
    have hcfg : (GetKafkaProducer historical).Partitioner = Partitioner.manual := by
      cases historical <;> rfl
    refine ⟨hcfg, ?_, ?_⟩
    · intro p hp
      simp only [destinationPartition, hcfg, toProducerMessage] at hp
      split_ifs at hp
      exact (Option.some.inj hp).symm
    · intro h0 h1
      simp only [destinationPartition, hcfg, toProducerMessage]
      rw [if_neg]
      omega

/-- C4 (amended), at a concrete run: three records, one of them without key. -/
theorem pull_forwards_in_order_witness :
    PullFromTopic 10 1 0 []
        ([recordWith (some [1]) (some [2]) 1, recordWith none (some [3]) 2,
          recordWith (some [4]) (some [5]) 3].map ReaderEvent.message) [] []
      = ⟨.waitingRead, [], [],
          [] ++ [recordWith (some [1]) (some [2]) 1, recordWith none (some [3]) 2,
            recordWith (some [4]) (some [5]) 3].map toProducerMessage, []⟩ :=
  (pull_forwards_in_order 10 1 0
    [recordWith (some [1]) (some [2]) 1, recordWith none (some [3]) 2,
      recordWith (some [4]) (some [5]) 3] [] []
    (by simp [belowFinal]) (by simp)).1

/-- C5 (as stated, refuted): a read error followed by a record. `PullFromTopic`
returns at the error; the record after it stays unread and is not forwarded. -/
theorem pull_error_counterexample :
    PullFromTopic 10 1 0 [] [ReaderEvent.error "read failed", ReaderEvent.message (recordAt 5)]
        [] []
      = ⟨.readError "read failed", [], [ReaderEvent.message (recordAt 5)], [], []⟩ ∧
    toProducerMessage (recordAt 5) ∉
      (PullFromTopic 10 1 0 [] [ReaderEvent.error "read failed",
        ReaderEvent.message (recordAt 5)] [] []).transfer := by
  simp [PullFromTopic]

/-- C5 (amended): `PullFromTopic` keeps no error count; it returns at the first read
error. The records read before the error are forwarded, every event after the
error is left unread. -/
theorem pull_returns_at_first_error (transferCap syncCap : Nat) (finalOffset : Int)
    (pre : List ConsumerMessage) (err : String) (post : List ReaderEvent)
    (transfer : List ProducerMessage) (syncChan : List Int)
    (hpre : ∀ m ∈ pre, belowFinal finalOffset m)
    (hroom : transfer.length + pre.length ≤ transferCap) :
    PullFromTopic transferCap syncCap finalOffset []
        (pre.map ReaderEvent.message ++ ReaderEvent.error err :: post) transfer syncChan
      = ⟨.readError err, [], post, transfer ++ pre.map toProducerMessage, syncChan⟩ := by
  rw [pull_forward_run transferCap syncCap finalOffset pre _ transfer syncChan hpre hroom]
  simp [PullFromTopic]

/-- C5 (amended), at a concrete run: two records, an error, one more record. -/
theorem pull_returns_at_first_error_witness :
    PullFromTopic 10 1 0 []
        ([recordAt 1, recordAt 2].map ReaderEvent.message
          ++ ReaderEvent.error "read failed" :: [ReaderEvent.message (recordAt 3)]) [] []
      = ⟨.readError "read failed", [], [ReaderEvent.message (recordAt 3)],
          [] ++ [recordAt 1, recordAt 2].map toProducerMessage, []⟩ :=
  pull_returns_at_first_error 10 1 0 [recordAt 1, recordAt 2] "read failed"
    [ReaderEvent.message (recordAt 3)] [] [] (by simp [belowFinal]) (by simp)

/-! ## The claims about the producer worker and the shutdown signal -/

/-- C6: `PushToTopic` hands the queued messages to `SendMessage` one at a time in
dequeue order, and the first failed publish stops it: the messages before the
failed one and the failed one itself have been sent, each once, the worker has
returned, and the messages behind the failed one are still in the queue. In every
run, whatever the outcomes, the messages sent are the ones taken from the head of
the queue, in order. -/
theorem push_stops_at_first_failure (send : Nat → ProducerMessage → Bool)
    (pre post : List ProducerMessage) (failed : ProducerMessage)
    (syncChan : List Int) (sent : List ProducerMessage)
    (hok : ∀ i x, pre[i]? = some x → send (sent.length + i) x = true)
    (hfail : send (sent.length + pre.length) failed = false) :
    PushToTopic send [] (pre ++ failed :: post) syncChan sent
      = ⟨.publishFailed, [], post, syncChan, sent ++ pre ++ [failed]⟩ ∧
    ∀ (signals : List Nat) (queue : List ProducerMessage) (syncChan0 : List Int)
      (sent0 : List ProducerMessage),
      ∃ taken : List ProducerMessage,
        queue = taken ++ (PushToTopic send signals queue syncChan0 sent0).transfer ∧
        (PushToTopic send signals queue syncChan0 sent0).sent = sent0 ++ taken := by
  refine ⟨?_, fun signals queue syncChan0 sent0 => push_trace send signals queue syncChan0 sent0⟩
  rw [push_success_run send pre failed post syncChan sent hok]
  have hfail1 : send (sent ++ pre).length failed = false := by
    simpa [List.length_append] using hfail
  rw [push_step_fail send [] failed post syncChan (sent ++ pre) (by simp) hfail1]

/-- C6, at a concrete run: the third publish fails, a fourth message is queued. -/
theorem push_stops_at_first_failure_witness :
    PushToTopic (fun i _ => decide (i ≠ 2)) []
        ([messageFor 0, messageFor 1] ++ messageFor 2 :: [messageFor 3]) [] []
      = ⟨.publishFailed, [], [messageFor 3], [],
          [] ++ [messageFor 0, messageFor 1] ++ [messageFor 2]⟩ :=
  (push_stops_at_first_failure (fun i _ => decide (i ≠ 2)) [messageFor 0, messageFor 1]
    [messageFor 3] (messageFor 2) [] []
    (by
      intro i x hx
      have hi : i < 2 := by
        by_contra hge
        have : ([messageFor 0, messageFor 1] : List ProducerMessage)[i]? = none :=
          List.getElem?_eq_none (by simpa using hge)
        rw [this] at hx
        exact Option.noConfusion hx
      simp only [List.length_nil, Nat.zero_add, decide_eq_true_eq]
      omega)
    (by simp)).1

/-- C7: when the signal channel is not empty at the top of the loop, each of
`PullFromTopic`, `PushToTopic` and `MonitorChan` returns at once: nothing is read,
enqueued, published or logged, and every channel, the signal channel included, is
as it was. And in every run of the three workers, interrupted or not, the signal
channel is left with the contents it had. -/
theorem workers_return_on_signal (signals : List Nat) (hs : signals ≠ [])
    (transferCap syncCap : Nat) (finalOffset : Int) (reader : List ReaderEvent)
    (transfer : List ProducerMessage) (syncChan : List Int)
    (send : Nat → ProducerMessage → Bool) (sent : List ProducerMessage)
    (rounds : Nat) (logged : List Nat) :
    PullFromTopic transferCap syncCap finalOffset signals reader transfer syncChan
      = ⟨.interrupted, signals, reader, transfer, syncChan⟩ ∧
    PushToTopic send signals transfer syncChan sent
      = ⟨.interrupted, signals, transfer, syncChan, sent⟩ ∧
    MonitorChan transfer signals rounds logged = ⟨.interrupted, signals, logged⟩ ∧
    ∀ anySignals : List Nat,
      (PullFromTopic transferCap syncCap finalOffset anySignals reader transfer
          syncChan).signals = anySignals ∧
      (PushToTopic send anySignals transfer syncChan sent).signals = anySignals ∧
      (MonitorChan transfer anySignals rounds logged).signals = anySignals :=
  ⟨pull_interrupted transferCap syncCap finalOffset signals hs reader transfer syncChan,
   push_interrupted send signals hs transfer syncChan sent,
   monitor_interrupted transfer signals hs rounds logged,
   fun anySignals =>
     ⟨pull_signals transferCap syncCap finalOffset anySignals reader transfer syncChan,
      push_signals send anySignals transfer syncChan sent,
      monitor_signals transfer anySignals rounds logged⟩⟩

/-- C7, at a concrete state: an interrupt (signal 2) is pending, a record is ready
to be read and a message is queued. -/
theorem workers_return_on_signal_witness :
    PullFromTopic 10 1 0 [2] [ReaderEvent.message (recordAt 7)] [messageFor 0] []
      = ⟨.interrupted, [2], [ReaderEvent.message (recordAt 7)], [messageFor 0], []⟩ ∧
    PushToTopic (fun _ _ => true) [2] [messageFor 0] [] []
      = ⟨.interrupted, [2], [messageFor 0], [], []⟩ ∧
    MonitorChan [messageFor 0] [2] 3 [] = ⟨.interrupted, [2], []⟩ :=
  have h := workers_return_on_signal [2] (by simp) 10 1 0 [ReaderEvent.message (recordAt 7)]
    [messageFor 0] [] (fun _ _ => true) [] 3 []
  ⟨h.1, h.2.1, h.2.2.1⟩

/-- C9: with the transfer queue empty and no interrupt, `PushToTopic` is waiting to
dequeue, whatever `syncChan` holds: a pending completion token is neither looked at
nor taken, and the worker does not return. -/
theorem push_waits_on_empty_queue (send : Nat → ProducerMessage → Bool)
    (syncChan : List Int) (sent : List ProducerMessage) :
    PushToTopic send [] [] syncChan sent = ⟨.waitingDequeue, [], [], syncChan, sent⟩ ∧
    PushToTopic send [] [] [1000] [] = ⟨.waitingDequeue, [], [], [1000], []⟩ := by
  simp [PushToTopic]

/-- C10: a run of `PushToTopic` that ends by the completion exit was not
interrupted, its last action before the exit was a successful publish of the last
queued message, the queue is empty, and `syncChan` has lost its head token and
nothing else; in particular `syncChan` was not empty. The check itself passes
exactly when the queue is empty and `syncChan` holds a token. -/
theorem push_completion_exit (send : Nat → ProducerMessage → Bool) (signals : List Nat)
    (transfer : List ProducerMessage) (syncChan : List Int) (sent : List ProducerMessage)
    (parNum : Int)
    (h : (PushToTopic send signals transfer syncChan sent).status = .completed parNum) :
    (signals = [] ∧
      (PushToTopic send signals transfer syncChan sent).transfer = [] ∧
      syncChan = parNum :: (PushToTopic send signals transfer syncChan sent).syncChan ∧
      ∃ (init : List ProducerMessage) (last : ProducerMessage),
        transfer = init ++ [last] ∧
        (PushToTopic send signals transfer syncChan sent).sent = sent ++ init ++ [last] ∧
        send (sent.length + init.length) last = true) ∧
    ∀ (queue : List ProducerMessage) (tokens : List Int) (tok : Int) (rest : List Int),
      completionCheck queue tokens = some (tok, rest) ↔ queue = [] ∧ tokens = tok :: rest :=
  ⟨push_completed_inv send signals transfer syncChan sent parNum h,
   fun queue tokens tok rest => completionCheck_iff queue tokens tok rest⟩

/-- C10, at a concrete run: one queued message, two tokens pending. -/
theorem push_completion_exit_witness :
    [7, 8] = (7 : Int) :: (PushToTopic (fun _ _ => true) [] [messageFor 0] [7, 8] []).syncChan :=
  (push_completion_exit (fun _ _ => true) [] [messageFor 0] [7, 8] [] 7
    (by simp [PushToTopic, completionCheck])).1.2.2.1

/-! ## The claims about offset resolution and the coordinator -/

end Firehose
